import Mathlib

/-!
Shallow embedding of the Kubeflake ID generator of the shortener repository
(package kubeflake: Settings validation, NextID state transition, Compose,
Decompose, the base-62 codec) and of the gcputil zone/region index tables.

Conventions of the embedding:
* Go uint64 values are Nat with an explicit `% two64` wherever the Go
  computation can wrap (shifts, increments, the decode accumulator).
* Go int / int64 values are Int; the Go conversion uint64(x) is `u64ofInt`.
* Go integer division on int64 (truncation toward zero) is `Int.tdiv`.
* Fallible Go functions returning (T, error) are `Except Err T`.
* The mutex and the backpressure sleep of NextID only delay the caller and
  do not change the computed state, so the state transition is modelled as
  the pure function `nextIDUpdate` on the (elapsedTime, sequence) pair.
-/

def two64 : Nat := 2 ^ 64

/-- Value of the Go conversion uint64(i) for an int64 i (two's complement wrap). -/
def u64ofInt (i : Int) : Nat := (i % (2 ^ 64 : Int)).toNat

namespace Kubeflake

/-- Error values declared by the kubeflake package; providerErr stands for an
error returned verbatim by a ClusterId/MachineId provider. -/
inductive Err where
  | invalidBitsTime
  | invalidBitsSequence
  | invalidBitsMachineID
  | invalidBitsClusterID
  | invalidTimeUnit
  | invalidSequence
  | invalidMachineID
  | invalidClusterID
  | startTimeAhead
  | overTimeLimit
  | invalidBase
  | providerErr (msg : String)
  deriving DecidableEq, Repr

instance {ε α : Type} [DecidableEq ε] [DecidableEq α] : DecidableEq (Except ε α) := fun a b =>
  match a, b with
  | .ok x, .ok y => decidable_of_iff (x = y) (by simp)
  | .ok _, .error _ => .isFalse (by simp)
  | .error _, .ok _ => .isFalse (by simp)
  | .error x, .error y => decidable_of_iff (x = y) (by simp)

/-! ## Base-62 codec (src/pkg/kubeflake/base.go) -/

/-- The fixed 62-character alphabet base62Chars, digits then upper then lower. -/
def base62Chars : List Char :=
  "0123456789ABCDEFGHIJKLMNOPQRSTUVWXYZabcdefghijklmnopqrstuvwxyz".toList

/-- Digit-list accumulation loop of Encode: Go repeatedly takes n % 62 as the
next least-significant character and divides n by 62, prepending characters;
equivalently recursion on n / 62 with the digit appended. -/
def encodeDigits (n : Nat) : List Char :=
  if h : n = 0 then []
  else encodeDigits (n / 62) ++ [base62Chars.getD (n % 62) ' ']
decreasing_by exact Nat.div_lt_self (Nat.pos_of_ne_zero h) (by norm_num)

namespace Base62Encoder

/-- Base62Encoder.Encode: 0 encodes as "0", otherwise the repeated
division/modulo loop, most-significant digit first. -/
def Encode (n : Nat) : List Char :=
  if n = 0 then ['0'] else encodeDigits n

/-- Accumulator loop of Base62Encoder.Decode: result = result*62 + index in
uint64 arithmetic; a character absent from the alphabet fails. -/
def decodeLoop (acc : Nat) : List Char → Except Err Nat
  | [] => .ok acc
  | c :: cs =>
    match base62Chars.indexOf? c with
    | none => .error .invalidBase
    | some i => decodeLoop ((acc * 62 + i) % two64) cs

/-- Base62Encoder.Decode, left-to-right accumulation starting from 0. -/
def Decode (s : List Char) : Except Err Nat := decodeLoop 0 s

end Base62Encoder

/-- Unbounded (mathematical) value of the decode accumulation, used to state
what Decode computes before the uint64 reduction. -/
def base62Val (acc : Nat) : List Char → Nat
  | [] => acc
  | c :: cs => base62Val (acc * 62 + ((base62Chars.indexOf? c).getD 0)) cs

/-! ## Generator (kubeflake.go, src/unnamed/part_002) -/

def minTimeBits : Int := 32
def minSequenceBits : Int := 8
def maxSequenceBits : Int := 30
def minClusterBits : Int := 2
def maxClusterBits : Int := 8
def maxMachineBits : Int := 16
def minMachineBits : Int := 3

/-- defaultTimeUnit = 10 * time.Millisecond, in nanoseconds. -/
def defaultTimeUnit : Int := 10 * 1000000
def defaultBitsCluster : Nat := 3
def defaultBitsMachine : Nat := 13
def defaultBitsSequence : Nat := 9

/-- time.Millisecond in nanoseconds. -/
def millisecond : Int := 1000000

/-- UnixNano of defaultEpochTime = 2025-01-01 00:00:00 UTC. -/
def defaultEpochNanos : Int := 1735689600 * 1000000000

/-- Settings, with the two provider functions replaced by the value each call
returns (Except models the (int, error) result), and EpochTime modelled as
an optional UnixNano instant, none standing for the zero time.Time
(EpochTime.IsZero). The Base field is omitted: the only codec in the
repository is Base62Encoder, embedded above. -/
structure Settings where
  bitsSequence : Int
  bitsCluster : Int
  bitsMachine : Int
  timeUnit : Int
  epochNanos : Option Int
  clusterId : Except String Int
  machineId : Except String Int

/-- The immutable part of a constructed Kubeflake value. Bit widths are kept
as Nat (New validates them nonnegative); machineId and clusterId are the Go
ints stored verbatim from the providers. -/
structure Kubeflake where
  machineId : Int
  clusterId : Int
  bitsTime : Nat
  bitsCluster : Nat
  bitsMachine : Nat
  bitsSequence : Nat
  sequenceMask : Nat
  timeUnit : Int
  startTime : Nat
  deriving DecidableEq, Repr

/-- The lock-protected mutable generator state (elapsedTime, sequence). -/
structure KfState where
  elapsedTime : Nat
  sequence : Nat
  deriving DecidableEq, Repr

/-- The settings.EpochTime.After(time.Now()) test: the zero time.Time (year 1)
is never after a representable now. -/
def epochAfter (epochNanos : Option Int) (nowNanos : Int) : Bool :=
  match epochNanos with
  | some e => e > nowNanos
  | none => false

/-- toInternalTime: uint64(t.UTC().UnixNano() / kf.timeUnit); Go division on
int64 truncates toward zero (Int.tdiv), then converts to uint64. -/
def toInternalTime (timeUnit : Int) (nanos : Int) : Nat :=
  u64ofInt (nanos.tdiv timeUnit)

/-- New(settings): validation in source order, then field initialization.
nowNanos is the UnixNano instant time.Now() returns during construction.
The zero-EpochTime branch of the After check is False because the zero
time.Time (year 1) is never after a representable now. -/
def New (nowNanos : Int) (settings : Settings) : Except Err Kubeflake :=
  if settings.bitsSequence < minSequenceBits ∨ settings.bitsSequence > maxSequenceBits then
    .error .invalidBitsSequence
  else if settings.bitsMachine < minMachineBits ∨ settings.bitsMachine > maxMachineBits then
    .error .invalidBitsMachineID
  else if settings.bitsCluster < minClusterBits ∨ settings.bitsCluster > maxClusterBits then
    .error .invalidBitsClusterID
  else if settings.timeUnit < 0 ∨ (settings.timeUnit > 0 ∧ settings.timeUnit < millisecond) then
    .error .invalidTimeUnit
  else if epochAfter settings.epochNanos nowNanos then
    .error .startTimeAhead
  else
    let bitsCluster : Nat :=
      if settings.bitsCluster = 0 then defaultBitsCluster else settings.bitsCluster.toNat
    let bitsMachine : Nat :=
      if settings.bitsMachine = 0 then defaultBitsMachine else settings.bitsMachine.toNat
    let bitsSequence : Nat :=
      if settings.bitsSequence = 0 then defaultBitsSequence else settings.bitsSequence.toNat
    let sequenceMask : Nat := (1 <<< bitsSequence) - 1
    let bitsTime : Int := 64 - (bitsCluster : Int) - (bitsMachine : Int) - (bitsSequence : Int)
    if bitsTime < minTimeBits then
      .error .invalidBitsTime
    else
      let timeUnit : Int := if settings.timeUnit = 0 then defaultTimeUnit else settings.timeUnit
      let startTime : Nat :=
        match settings.epochNanos with
        | none => toInternalTime timeUnit defaultEpochNanos
        | some e => toInternalTime timeUnit e
      match settings.clusterId with
      | .error e => .error (.providerErr e)
      | .ok cluster =>
        match settings.machineId with
        | .error e => .error (.providerErr e)
        | .ok machine =>
          .ok { machineId := machine, clusterId := cluster,
                bitsTime := bitsTime.toNat, bitsCluster := bitsCluster,
                bitsMachine := bitsMachine, bitsSequence := bitsSequence,
                sequenceMask := sequenceMask, timeUnit := timeUnit,
                startTime := startTime }

/-- uint64 subtraction a - b (wrapping), for a b < two64. -/
def sub64 (a b : Nat) : Nat := (a + two64 - b) % two64

/-- currentElapsedTime: toInternalTime(now) - startTime in uint64 arithmetic. -/
def currentElapsedTime (kf : Kubeflake) (nowNanos : Int) : Nat :=
  sub64 (toInternalTime kf.timeUnit nowNanos) kf.startTime

/-- toID: the overflow check against 1 << bitsTime (uint64 semantics), then
the bit-packing of elapsedTime, sequence, clusterId, machineId. Each shifted
uint64 term carries an explicit reduction modulo two64. -/
def toID (kf : Kubeflake) (st : KfState) : Except Err Nat :=
  if st.elapsedTime ≥ (1 <<< kf.bitsTime) % two64 then
    .error .overTimeLimit
  else
    .ok ((st.elapsedTime <<< (kf.bitsSequence + kf.bitsCluster + kf.bitsMachine)) % two64
      ||| (st.sequence <<< (kf.bitsMachine + kf.bitsCluster)) % two64
      ||| (u64ofInt kf.clusterId <<< kf.bitsMachine) % two64
      ||| u64ofInt kf.machineId)

/-- The state transition inside NextID (the body between Lock and Unlock,
without the sleep, which only blocks the caller and writes no state). -/
def nextIDUpdate (kf : Kubeflake) (current : Nat) (st : KfState) : KfState :=
  if st.elapsedTime < current then
    { elapsedTime := current, sequence := 0 }
  else
    let sequence := (st.sequence + 1) &&& kf.sequenceMask
    if sequence = 0 then
      { elapsedTime := (st.elapsedTime + 1) % two64, sequence := sequence }
    else
      { elapsedTime := st.elapsedTime, sequence := sequence }

/-- NextID: update the state from the current clock reading, then pack. The
returned pair is (state after the call, result of the call). -/
def NextID (kf : Kubeflake) (nowNanos : Int) (st : KfState) : KfState × Except Err Nat :=
  let st1 := nextIDUpdate kf (currentElapsedTime kf nowNanos) st
  (st1, toID kf st1)

/-- NextKey: the codec-encoded form of NextID. -/
def NextKey (kf : Kubeflake) (nowNanos : Int) (st : KfState) : KfState × Except Err (List Char) :=
  match NextID kf nowNanos st with
  | (st1, .error e) => (st1, .error e)
  | (st1, .ok id) => (st1, .ok (Base62Encoder.Encode id))

/-- Compose: validation in source order, then the packing expression. The
elapsed subtraction is plain (it is guarded by the startTime comparison);
range checks on sequence, clusterId, machineID are Go int comparisons. -/
def Compose (kf : Kubeflake) (nanos : Int) (sequence machineID clusterId : Int) :
    Except Err Nat :=
  let internalTime := toInternalTime kf.timeUnit nanos
  if internalTime < kf.startTime then
    .error .startTimeAhead
  else
    let elapsedTime := internalTime - kf.startTime
    if elapsedTime ≥ (1 <<< kf.bitsTime) % two64 then
      .error .overTimeLimit
    else if sequence < 0 ∨ sequence ≥ 1 <<< kf.bitsSequence then
      .error .invalidSequence
    else if clusterId < 0 ∨ clusterId ≥ 1 <<< kf.bitsCluster then
      .error .invalidClusterID
    else if machineID < 0 ∨ machineID ≥ 1 <<< kf.bitsMachine then
      .error .invalidMachineID
    else
      .ok ((elapsedTime <<< (kf.bitsSequence + kf.bitsMachine + kf.bitsCluster)) % two64
        ||| (u64ofInt sequence <<< (kf.bitsMachine + kf.bitsCluster)) % two64
        ||| (u64ofInt clusterId <<< kf.bitsMachine) % two64
        ||| u64ofInt machineID)

/-- The four entries of the map returned by Decompose (keys Timestamp,
Sequence, MachineID, ClusterID). -/
structure IdParts where
  timestamp : Nat
  sequence : Nat
  machineId : Nat
  clusterId : Nat
  deriving DecidableEq, Repr

/-- timePart: id right-shifted past the three low fields. -/
def timePart (kf : Kubeflake) (id : Nat) : Nat :=
  id >>> (kf.bitsSequence + kf.bitsCluster + kf.bitsMachine)

/-- sequencePart: mask of the sequence field then shift down. The mask is
computed in Go int arithmetic, which cannot overflow for validated widths. -/
def sequencePart (kf : Kubeflake) (id : Nat) : Nat :=
  (id &&& (((1 <<< kf.bitsSequence) - 1) <<< (kf.bitsMachine + kf.bitsCluster)))
    >>> (kf.bitsMachine + kf.bitsCluster)

/-- clusterPart: mask of the cluster field then shift down. -/
def clusterPart (kf : Kubeflake) (id : Nat) : Nat :=
  (id &&& (((1 <<< kf.bitsCluster) - 1) <<< kf.bitsMachine)) >>> kf.bitsMachine

/-- machinePart: low bitsMachine bits. -/
def machinePart (kf : Kubeflake) (id : Nat) : Nat :=
  id &&& ((1 <<< kf.bitsMachine) - 1)

/-- Decompose: pure bit extraction of the four fields; never fails. -/
def Decompose (kf : Kubeflake) (id : Nat) : IdParts :=
  { timestamp := timePart kf id
    sequence := sequencePart kf id
    machineId := machinePart kf id
    clusterId := clusterPart kf id }

/-- The facts New establishes about every Kubeflake it returns: bit widths in
their declared bounds, the field widths summing to 64, the derived sequence
mask, and a positive time unit. -/
structure WellFormed (kf : Kubeflake) : Prop where
  bs_lb : 8 ≤ kf.bitsSequence
  bs_ub : kf.bitsSequence ≤ 30
  bc_lb : 2 ≤ kf.bitsCluster
  bc_ub : kf.bitsCluster ≤ 8
  bm_lb : 3 ≤ kf.bitsMachine
  bm_ub : kf.bitsMachine ≤ 16
  bt_lb : 32 ≤ kf.bitsTime
  total : kf.bitsTime + kf.bitsCluster + kf.bitsMachine + kf.bitsSequence = 64
  mask : kf.sequenceMask = 2 ^ kf.bitsSequence - 1
  unit_pos : 0 < kf.timeUnit

end Kubeflake

namespace Gcputil

/-!
Zone/region index construction (package gcputil, rebuildIndices). Go strings
are modelled as List Char; every name in the catalogue is ASCII, so the Go
byte order used by sort.Strings coincides with code-point order. Go maps are
association lists; the code only reads them through sorted key lists and
per-key lookups, so the listing order is irrelevant. sort.Strings is modelled
by insertion sort: all sorted keys are pairwise distinct, so any sorting
algorithm yields the same (unique) sorted list.
-/

/-- List Char of a string literal. -/
def gs (s : String) : List Char := s.toList

/-- Go byte-wise string comparison (less-or-equal), on ASCII lists. -/
def goStrLe : List Char → List Char → Bool
  | [], _ => true
  | _ :: _, [] => false
  | a :: as, b :: bs =>
    if a.toNat < b.toNat then true
    else if b.toNat < a.toNat then false
    else goStrLe as bs

/-- Insert into a sorted list of strings. -/
def insertStr (x : List Char) : List (List Char) → List (List Char)
  | [] => [x]
  | y :: ys => if goStrLe x y then x :: y :: ys else y :: insertStr x ys

/-- Model of sort.Strings. -/
def sortStrings : List (List Char) → List (List Char)
  | [] => []
  | x :: xs => insertStr x (sortStrings xs)

/-- topRegionZones: the pinned zone letters per region. -/
def topRegionZones : List (List Char × List (List Char)) :=
  [ (gs "africa-south1", [gs "a"])
  , (gs "asia-east1", [gs "a"])
  , (gs "australia-southeast2", [gs "a"])
  , (gs "us-west1", [gs "a"])
  , (gs "us-central1", [gs "c"])
  , (gs "europe-west2", [gs "a"])
  , (gs "europe-north1", [gs "a"])
  , (gs "southamerica-east1", [gs "a"]) ]

/-- baseRegionZones: the baked-in catalogue of regions to zone letters. -/
def baseRegionZones : List (List Char × List (List Char)) :=
  [ (gs "africa-south1", [gs "a", gs "b", gs "c"])
  , (gs "asia-east1", [gs "a", gs "b", gs "c"])
  , (gs "asia-east2", [gs "a", gs "b", gs "c"])
  , (gs "asia-northeast1", [gs "a", gs "b", gs "c"])
  , (gs "asia-northeast2", [gs "a", gs "b", gs "c"])
  , (gs "asia-northeast3", [gs "a", gs "b", gs "c"])
  , (gs "asia-south1", [gs "a", gs "b", gs "c"])
  , (gs "asia-south2", [gs "a", gs "b", gs "c"])
  , (gs "asia-southeast1", [gs "a", gs "b", gs "c"])
  , (gs "asia-southeast2", [gs "a", gs "b", gs "c"])
  , (gs "asia-southeast3", [gs "a", gs "b", gs "c"])
  , (gs "asia-southeast5", [gs "a", gs "b"])
  , (gs "australia-southeast1", [gs "a", gs "b", gs "c"])
  , (gs "australia-southeast2", [gs "a", gs "b", gs "c"])
  , (gs "europe-central2", [gs "a", gs "b", gs "c"])
  , (gs "europe-north1", [gs "a", gs "b", gs "c"])
  , (gs "europe-southwest1", [gs "a", gs "b", gs "c"])
  , (gs "europe-west1", [gs "b", gs "c", gs "d"])
  , (gs "europe-west2", [gs "a", gs "b", gs "c"])
  , (gs "europe-west3", [gs "a", gs "b", gs "c"])
  , (gs "europe-west4", [gs "a", gs "b", gs "c"])
  , (gs "europe-west6", [gs "a", gs "b", gs "c"])
  , (gs "europe-west8", [gs "a", gs "b"])
  , (gs "europe-west9", [gs "a", gs "b", gs "c"])
  , (gs "europe-west10", [gs "a", gs "b", gs "c"])
  , (gs "europe-west12", [gs "a", gs "b", gs "c"])
  , (gs "me-central1", [gs "a", gs "b", gs "c"])
  , (gs "me-central2", [gs "a", gs "b", gs "c"])
  , (gs "me-west1", [gs "a", gs "b", gs "c"])
  , (gs "northamerica-northeast1", [gs "a", gs "b", gs "c"])
  , (gs "northamerica-northeast2", [gs "a", gs "b", gs "c"])
  , (gs "southamerica-east1", [gs "a", gs "b", gs "c"])
  , (gs "southamerica-west1", [gs "a", gs "b", gs "c"])
  , (gs "us-central1", [gs "a", gs "b", gs "c", gs "f"])
  , (gs "us-east1", [gs "b", gs "c", gs "d"])
  , (gs "us-east4", [gs "a", gs "b", gs "c"])
  , (gs "us-east5", [gs "a", gs "b", gs "c"])
  , (gs "us-south1", [gs "a", gs "b", gs "c"])
  , (gs "us-west1", [gs "a", gs "b", gs "c"])
  , (gs "us-west2", [gs "a", gs "b", gs "c"])
  , (gs "us-west3", [gs "a", gs "b", gs "c"])
  , (gs "us-west4", [gs "a", gs "b", gs "c"]) ]

/-- Go map indexing m[r] for the zone-letter maps: zero value [] if absent. -/
def mapGet (m : List (List Char × List (List Char))) (r : List Char) : List (List Char) :=
  (m.lookup r).getD []

/-- hasLetter: linear scan for the wanted letter. -/
def hasLetter (letters : List (List Char)) (want : List Char) : Bool :=
  letters.contains want

/-- allRegions: the catalogue keys, sorted. -/
def allRegions : List (List Char) :=
  sortStrings (baseRegionZones.map Prod.fst)

/-- topRegions: pinned regions that exist in the catalogue, sorted. -/
def topRegions : List (List Char) :=
  sortStrings ((topRegionZones.map Prod.fst).filter
    (fun r => (baseRegionZones.lookup r).isSome))

/-- Zone assignment accumulator: the Zones entries in assignment order plus
the next index zIdx. The Go set named added always holds exactly the keys
assigned so far, so membership is checked on the assigned keys. -/
structure ZoneAcc where
  zones : List (List Char × Nat)
  zIdx : Nat

/-- One loop body iteration: skip an already-assigned zone, else assign the
next index. -/
def addZone (acc : ZoneAcc) (zone : List Char) : ZoneAcc :=
  if (acc.zones.map Prod.fst).contains zone then acc
  else { zones := acc.zones ++ [(zone, acc.zIdx)], zIdx := acc.zIdx + 1 }

/-- First pass of rebuildIndices: pinned regions in sorted order; within each,
the sorted pinned letters that exist in the catalogue for that region. -/
def zonesPass1 (acc : ZoneAcc) : ZoneAcc :=
  topRegions.foldl (fun a r =>
    ((sortStrings (mapGet topRegionZones r)).filter
        (fun l => hasLetter (mapGet baseRegionZones r) l)).foldl
      (fun a2 l => addZone a2 (r ++ '-' :: l)) a) acc

/-- Second pass: all regions in sorted order, all their sorted letters. -/
def zonesPass2 (acc : ZoneAcc) : ZoneAcc :=
  allRegions.foldl (fun a r =>
    (sortStrings (mapGet baseRegionZones r)).foldl
      (fun a2 l => addZone a2 (r ++ '-' :: l)) a) acc

/-- The Zones table rebuildIndices builds, as assignment-ordered pairs. -/
def zonesTable : List (List Char × Nat) :=
  (zonesPass2 (zonesPass1 ⟨[], 0⟩)).zones

/-- The pinned zones that exist in the catalogue (the zones the first pass
walks), i.e. the claims' pinned zones. -/
def pinnedZones : List (List Char) :=
  topRegions.bind (fun r =>
    ((sortStrings (mapGet topRegionZones r)).filter
        (fun l => hasLetter (mapGet baseRegionZones r) l)).map
      (fun l => r ++ '-' :: l))

end Gcputil

namespace Kubeflake

/-! ## Concrete values used by counterexamples and witnesses -/

/-- A Settings value with all fields valid: default-size widths given
explicitly, 1ms time unit, epoch at the Unix epoch, providers returning 2
and 5 (mirrors the validSettings fixture of the package tests). -/
def exSettings : Settings :=
  { bitsSequence := 9, bitsCluster := 3, bitsMachine := 13,
    timeUnit := millisecond, epochNanos := some 0,
    clusterId := .ok 2, machineId := .ok 5 }

/-- The Kubeflake that New builds from exSettings. -/
def exKf : Kubeflake :=
  { machineId := 5, clusterId := 2, bitsTime := 39, bitsCluster := 3,
    bitsMachine := 13, bitsSequence := 9, sequenceMask := 511,
    timeUnit := millisecond, startTime := 0 }

/-- exSettings with the machine-id provider returning 65536 = 2^16, outside
the declared 13-bit machine range (New accepts it: no range check). -/
def overflowSettings : Settings :=
  { exSettings with machineId := .ok 65536, clusterId := .ok 0 }

/-- The Kubeflake that New builds from overflowSettings. -/
def overflowKf : Kubeflake :=
  { exKf with machineId := 65536, clusterId := 0 }

/-- exSettings with the cluster-id provider returning 8, outside the declared
3-bit cluster range. -/
def badClusterSettings : Settings :=
  { exSettings with clusterId := .ok 8 }

/-- The Kubeflake that New builds from badClusterSettings. -/
def badClusterKf : Kubeflake :=
  { exKf with clusterId := 8 }

/-- exKf with a nonzero startTime (epoch tick 100), used to exercise the
before-epoch branch of Compose. -/
def exKf2 : Kubeflake := { exKf with startTime := 100 }

/-- exSettings with BitsSequence left unset (zero). -/
def zeroSeqSettings : Settings := { exSettings with bitsSequence := 0 }

/-- exSettings with BitsCluster left unset (zero). -/
def zeroClusterSettings : Settings := { exSettings with bitsCluster := 0 }

/-- exSettings with BitsMachine left unset (zero). -/
def zeroMachineSettings : Settings := { exSettings with bitsMachine := 0 }

end Kubeflake

/-! # Theorems -/

namespace Kubeflake

/-! ## Codec lemmas -/

theorem digit_indexOf (d : Nat) (h : d < 62) :
    base62Chars.indexOf? (base62Chars.getD d ' ') = some d := by
  revert d h
  decide

theorem digit_mem (d : Nat) (h : d < 62) : base62Chars.getD d ' ' ∈ base62Chars := by
  revert d h
  decide

theorem mem_indexOf_isSome (c : Char) (h : c ∈ base62Chars) :
    (base62Chars.indexOf? c).isSome := by
  cases hx : base62Chars.indexOf? c with
  | none =>
    rw [List.indexOf?_eq_none_iff] at hx
    exact absurd (beq_self_eq_true c) (by simpa using hx c h)
  | some i => rfl

theorem decodeLoop_valid (cs : List Char) :
    ∀ b : Nat, (∀ c ∈ cs, c ∈ base62Chars) →
      Base62Encoder.decodeLoop (b % two64) cs = .ok (base62Val b cs % two64) := by
  induction cs with
  | nil => intro b _; rfl
  | cons c cs ih =>
    intro b hv
    have hc : c ∈ base62Chars := hv c (by simp)
    obtain ⟨i, hi⟩ := Option.isSome_iff_exists.mp (mem_indexOf_isSome c hc)
    have hmod : (b % two64 * 62 + i) % two64 = (b * 62 + i) % two64 :=
      (((Nat.mod_modEq b two64).mul_right 62).add_right i)
    simp only [Base62Encoder.decodeLoop, hi, base62Val, hmod, Option.getD_some]
    exact ih (b * 62 + i) (fun x hx => hv x (by simp [hx]))

theorem base62Val_append (xs : List Char) (c : Char) :
    ∀ acc : Nat, base62Val acc (xs ++ [c]) =
      base62Val acc xs * 62 + (base62Chars.indexOf? c).getD 0 := by
  induction xs with
  | nil => intro acc; simp [base62Val]
  | cons x xs ih =>
    intro acc
    rw [List.cons_append]
    simp only [base62Val]
    rw [ih]

theorem base62Val_encodeDigits (n : Nat) :
    ∀ acc : Nat, base62Val acc (encodeDigits n) =
      acc * 62 ^ (encodeDigits n).length + n := by
  induction n using Nat.strong_induction_on with
  | _ n ih =>
    intro acc
    by_cases h : n = 0
    · subst h
      rw [encodeDigits]
      simp [base62Val]
    · rw [encodeDigits]
      simp only [h, dite_false]
      rw [base62Val_append, ih (n / 62) (Nat.div_lt_self (Nat.pos_of_ne_zero h) (by norm_num)),
        digit_indexOf (n % 62) (Nat.mod_lt n (by norm_num)), Option.getD_some,
        List.length_append, List.length_singleton, pow_succ]
      have hdm := Nat.div_add_mod n 62
      set L := 62 ^ (encodeDigits (n / 62)).length with hL
      ring_nf
      nlinarith [hdm]

theorem encodeDigits_valid (n : Nat) : ∀ c ∈ encodeDigits n, c ∈ base62Chars := by
  induction n using Nat.strong_induction_on with
  | _ n ih =>
    by_cases h : n = 0
    · subst h; rw [encodeDigits]; simp
    · rw [encodeDigits]
      simp only [h, dite_false]
      intro c hmem
      rcases List.mem_append.mp hmem with h1 | h2
      · exact ih (n / 62) (Nat.div_lt_self (Nat.pos_of_ne_zero h) (by norm_num)) c h1
      · rw [List.mem_singleton.mp h2]
        exact digit_mem (n % 62) (Nat.mod_lt n (by norm_num))

/-- C5: for every uint64 n the base-62 codec round-trips, 0 encodes as the
single character string "0", and Encode never returns an empty string. -/
theorem base62_roundtrip :
    (∀ n : Nat, n < two64 → Base62Encoder.Decode (Base62Encoder.Encode n) = .ok n) ∧
    Base62Encoder.Encode 0 = ['0'] ∧
    (∀ n : Nat, Base62Encoder.Encode n ≠ []) := by
  refine ⟨fun n hn => ?_, rfl, fun n => ?_⟩
  · by_cases h : n = 0
    · subst h; decide
    · have hval := decodeLoop_valid (encodeDigits n) 0 (encodeDigits_valid n)
      rw [Nat.zero_mod] at hval
      have henc : base62Val 0 (encodeDigits n) = n := by
        rw [base62Val_encodeDigits n 0, Nat.zero_mul, Nat.zero_add]
      simp only [Base62Encoder.Encode, Base62Encoder.Decode, h, if_false]
      rw [hval, henc, Nat.mod_eq_of_lt hn]
  · by_cases h : n = 0
    · subst h; simp [Base62Encoder.Encode]
    · simp only [Base62Encoder.Encode, h, if_false]
      rw [encodeDigits]
      simp [h]

/-- Witness for C5 at the concrete input 63. -/
theorem base62_roundtrip_witness :
    Base62Encoder.Decode (Base62Encoder.Encode 63) = .ok 63 :=
  base62_roundtrip.1 63 (by decide)

/-- C9: Decode of any all-alphabet string succeeds with the base-62 value of
the string reduced modulo 2^64, and Decode is not injective: the string
"LygHa16AHYG" (the base-62 digits of 2^64) and the string "0" are distinct
yet decode to the same uint64. -/
theorem decode_mod_not_injective :
    (∀ cs : List Char, (∀ c ∈ cs, c ∈ base62Chars) →
      Base62Encoder.Decode cs = .ok (base62Val 0 cs % two64)) ∧
    (∃ cs1 cs2 : List Char, cs1 ≠ cs2 ∧ (∀ c ∈ cs1, c ∈ base62Chars) ∧
      (∀ c ∈ cs2, c ∈ base62Chars) ∧
      Base62Encoder.Decode cs1 = Base62Encoder.Decode cs2) := by
  constructor
  · intro cs hv
    have := decodeLoop_valid cs 0 hv
    rwa [Nat.zero_mod] at this
  · refine ⟨"LygHa16AHYG".toList, ['0'], by decide, by decide, by decide, by decide⟩

/-- Witness for C9 at the concrete one-character string "Z". -/
theorem decode_mod_not_injective_witness :
    Base62Encoder.Decode ['Z'] = .ok (base62Val 0 ['Z'] % two64) :=
  decode_mod_not_injective.1 ['Z'] (by decide)

end Kubeflake

namespace Kubeflake

/-! ## Bit-packing arithmetic lemmas -/

theorem lor_shiftLeft_add (a b k : Nat) (h : b < 2 ^ k) :
    (a <<< k) ||| b = a * 2 ^ k + b := by
  apply Nat.eq_of_testBit_eq
  intro j
  rw [Nat.shiftLeft_eq, Nat.mul_comm a (2 ^ k), Nat.testBit_lor,
    Nat.testBit_mul_pow_two_add a h j, Nat.testBit_mul_pow_two]
  by_cases hj : j < k
  · simp [hj, Nat.not_le.mpr hj]
  · have hbj : b.testBit j = false :=
      Nat.testBit_lt_two_pow
        (lt_of_lt_of_le h (Nat.pow_le_pow_right (by norm_num) (Nat.le_of_not_lt hj)))
    simp [hj, Nat.le_of_not_lt hj, hbj]

theorem two_field_lt (c m csz msz : Nat) (hc : c < 2 ^ csz) (hm : m < 2 ^ msz) :
    c * 2 ^ msz + m < 2 ^ (msz + csz) := by
  have h1 : c * 2 ^ msz + m < (c + 1) * 2 ^ msz := by
    have : (c + 1) * 2 ^ msz = c * 2 ^ msz + 2 ^ msz := by ring
    linarith
  have h2 : (c + 1) * 2 ^ msz ≤ 2 ^ csz * 2 ^ msz := Nat.mul_le_mul_right _ hc
  have h3 : (2 : Nat) ^ csz * 2 ^ msz = 2 ^ (msz + csz) := by rw [← pow_add, Nat.add_comm]
  linarith

theorem split_div (a b n : Nat) (hn : 0 < n) (hb : b < n) : (a * n + b) / n = a := by
  rw [Nat.mul_comm, Nat.mul_add_div hn, Nat.div_eq_of_lt hb, Nat.add_zero]

theorem split_mod (a b n : Nat) (hb : b < n) : (a * n + b) % n = b := by
  rw [Nat.mul_comm, Nat.mul_add_mod, Nat.mod_eq_of_lt hb]

theorem pack_eq (e s c m bs bc bm : Nat) (hs : s < 2 ^ bs) (hc : c < 2 ^ bc)
    (hm : m < 2 ^ bm) :
    (e <<< (bs + bc + bm)) ||| (s <<< (bm + bc)) ||| (c <<< bm) ||| m =
      ((e * 2 ^ bs + s) * 2 ^ bc + c) * 2 ^ bm + m := by
  rw [Nat.lor_assoc, Nat.lor_assoc]
  rw [lor_shiftLeft_add c m bm hm]
  have hcm : c * 2 ^ bm + m < 2 ^ (bm + bc) := two_field_lt c m bc bm hc hm
  rw [lor_shiftLeft_add s _ (bm + bc) hcm]
  have hscm : s * 2 ^ (bm + bc) + (c * 2 ^ bm + m) < 2 ^ (bs + bc + bm) := by
    have := two_field_lt s _ bs (bm + bc) hs hcm
    have hexp : bm + bc + bs = bs + bc + bm := by omega
    rwa [hexp] at this
  rw [lor_shiftLeft_add e _ (bs + bc + bm) hscm]
  have e1 : (2 : Nat) ^ (bs + bc + bm) = 2 ^ bs * 2 ^ bc * 2 ^ bm := by
    rw [pow_add, pow_add]
  have e2 : (2 : Nat) ^ (bm + bc) = 2 ^ bc * 2 ^ bm := by
    rw [pow_add, Nat.mul_comm]
  rw [e1, e2]
  ring

theorem unpack_time (e s c m bs bc bm : Nat) (hs : s < 2 ^ bs) (hc : c < 2 ^ bc)
    (hm : m < 2 ^ bm) :
    (((e * 2 ^ bs + s) * 2 ^ bc + c) * 2 ^ bm + m) >>> (bs + bc + bm) = e := by
  rw [Nat.shiftRight_eq_div_pow]
  have hcm : c * 2 ^ bm + m < 2 ^ (bm + bc) := two_field_lt c m bc bm hc hm
  have hrest : s * (2 ^ bc * 2 ^ bm) + (c * 2 ^ bm + m) < 2 ^ (bs + bc + bm) := by
    have h1 := two_field_lt s (c * 2 ^ bm + m) bs (bm + bc) hs hcm
    have e2 : (2 : Nat) ^ (bm + bc) = 2 ^ bc * 2 ^ bm := by rw [pow_add, Nat.mul_comm]
    have e3 : (2 : Nat) ^ (bm + bc + bs) = 2 ^ (bs + bc + bm) := by congr 1; omega
    rw [e2, e3] at h1
    exact h1
  have hflat : ((e * 2 ^ bs + s) * 2 ^ bc + c) * 2 ^ bm + m =
      e * 2 ^ (bs + bc + bm) + (s * (2 ^ bc * 2 ^ bm) + (c * 2 ^ bm + m)) := by
    rw [pow_add, pow_add]
    ring
  rw [hflat, split_div _ _ _ (Nat.pos_pow_of_pos _ (by norm_num)) hrest]

theorem and_mask_shift (x bs B : Nat) :
    (x &&& ((2 ^ bs - 1) <<< B)) >>> B = x / 2 ^ B % 2 ^ bs := by
  apply Nat.eq_of_testBit_eq
  intro j
  rw [Nat.testBit_shiftRight, Nat.testBit_land, Nat.testBit_shiftLeft,
    Nat.testBit_two_pow_sub_one, Nat.testBit_mod_two_pow, ← Nat.shiftRight_eq_div_pow,
    Nat.testBit_shiftRight]
  have hge : B + j ≥ B := Nat.le_add_right B j
  have hsub : B + j - B = j := by omega
  simp [hge, hsub, Bool.and_comm]

theorem unpack_mach (q m bm : Nat) (hm : m < 2 ^ bm) :
    (q * 2 ^ bm + m) &&& (2 ^ bm - 1) = m := by
  rw [Nat.and_pow_two_sub_one_eq_mod, split_mod _ _ _ hm]

theorem unpack_mid (q r v w B : Nat) (hv : v < 2 ^ w) (hr : r < 2 ^ B) :
    ((q * 2 ^ w + v) * 2 ^ B + r) / 2 ^ B % 2 ^ w = v := by
  rw [split_div _ _ _ (Nat.pos_pow_of_pos _ (by norm_num)) hr, split_mod _ _ _ hv]

theorem decompose_nested (kf : Kubeflake) (e s c m : Nat)
    (hs : s < 2 ^ kf.bitsSequence) (hc : c < 2 ^ kf.bitsCluster)
    (hm : m < 2 ^ kf.bitsMachine) :
    Decompose kf
        (((e * 2 ^ kf.bitsSequence + s) * 2 ^ kf.bitsCluster + c) * 2 ^ kf.bitsMachine + m) =
      { timestamp := e, sequence := s, machineId := m, clusterId := c } := by
  have hcm : c * 2 ^ kf.bitsMachine + m < 2 ^ (kf.bitsMachine + kf.bitsCluster) :=
    two_field_lt _ _ _ _ hc hm
  have hid2 : ((e * 2 ^ kf.bitsSequence + s) * 2 ^ kf.bitsCluster + c) * 2 ^ kf.bitsMachine + m =
      (e * 2 ^ kf.bitsSequence + s) * 2 ^ (kf.bitsMachine + kf.bitsCluster) +
        (c * 2 ^ kf.bitsMachine + m) := by
    rw [pow_add]
    ring
  simp only [Decompose, timePart, sequencePart, clusterPart, machinePart, Nat.one_shiftLeft,
    IdParts.mk.injEq]
  refine ⟨?_, ?_, ?_, ?_⟩
  · exact unpack_time e s c m _ _ _ hs hc hm
  · rw [and_mask_shift, hid2]
    exact unpack_mid _ _ _ _ _ hs hcm
  · exact unpack_mach _ m _ hm
  · rw [and_mask_shift]
    exact unpack_mid _ _ _ _ _ hc hm

theorem shift_mod_two64 (x k : Nat) (hk : k ≤ 64) (h : x < 2 ^ (64 - k)) :
    (x <<< k) % two64 = x <<< k := by
  apply Nat.mod_eq_of_lt
  rw [Nat.shiftLeft_eq, two64]
  calc x * 2 ^ k < 2 ^ (64 - k) * 2 ^ k :=
        mul_lt_mul_of_pos_right h (Nat.pos_pow_of_pos _ (by norm_num))
    _ = 2 ^ 64 := by rw [← pow_add]; congr 1; omega

theorem one_shift_mod_two64 (t : Nat) (h : t < 64) : (1 <<< t) % two64 = 2 ^ t := by
  rw [Nat.one_shiftLeft]
  exact Nat.mod_eq_of_lt (Nat.pow_lt_pow_right (by norm_num) h)

theorem u64ofInt_eq_toNat (x : Int) (h0 : 0 ≤ x) (h1 : x < (2 : Int) ^ 64) :
    u64ofInt x = x.toNat := by
  unfold u64ofInt
  rw [Int.emod_eq_of_lt h0 h1]

theorem int_lt_two64 (x : Int) (bits : Nat) (hb : bits ≤ 64) (h : x < 2 ^ bits) :
    x < (2 : Int) ^ 64 :=
  lt_of_lt_of_le h (pow_le_pow_right (by norm_num) hb)

theorem toID_eq (kf : Kubeflake) (st : KfState) (hwf : WellFormed kf)
    (he : st.elapsedTime < 2 ^ kf.bitsTime) (hs : st.sequence < 2 ^ kf.bitsSequence)
    (hc : u64ofInt kf.clusterId < 2 ^ kf.bitsCluster)
    (hm : u64ofInt kf.machineId < 2 ^ kf.bitsMachine) :
    toID kf st = .ok (((st.elapsedTime * 2 ^ kf.bitsSequence + st.sequence) *
        2 ^ kf.bitsCluster + u64ofInt kf.clusterId) * 2 ^ kf.bitsMachine +
        u64ofInt kf.machineId) := by
  obtain ⟨bs1, bs2, bc1, bc2, bm1, bm2, bt1, htot, hmask, hunit⟩ := hwf
  unfold toID
  rw [one_shift_mod_two64 _ (by omega), if_neg (Nat.not_le.mpr he)]
  have hE : 64 - (kf.bitsSequence + kf.bitsCluster + kf.bitsMachine) = kf.bitsTime := by omega
  rw [shift_mod_two64 _ _ (by omega) (by rw [hE]; exact he)]
  rw [shift_mod_two64 _ _ (by omega)
    (lt_of_lt_of_le hs (Nat.pow_le_pow_right (by norm_num) (by omega)))]
  rw [shift_mod_two64 _ _ (by omega)
    (lt_of_lt_of_le hc (Nat.pow_le_pow_right (by norm_num) (by omega)))]
  rw [pack_eq _ _ _ _ _ _ _ hs hc hm]

end Kubeflake

namespace Kubeflake

/-! ## Facts about New and the NextID transition -/

theorem New_wellFormed (nowNanos : Int) (s : Settings) (kf : Kubeflake)
    (h : New nowNanos s = .ok kf) : WellFormed kf := by
  simp only [New, minSequenceBits, maxSequenceBits, minMachineBits, maxMachineBits,
    minClusterBits, maxClusterBits, minTimeBits, millisecond] at h
  split at h
  next => exact Except.noConfusion h
  next h1 =>
  split at h
  next => exact Except.noConfusion h
  next h2 =>
  split at h
  next => exact Except.noConfusion h
  next h3 =>
  split at h
  next => exact Except.noConfusion h
  next h4 =>
  have hbs0 : ¬(s.bitsSequence = 0) := by omega
  have hbc0 : ¬(s.bitsCluster = 0) := by omega
  have hbm0 : ¬(s.bitsMachine = 0) := by omega
  simp only [if_neg hbs0, if_neg hbc0, if_neg hbm0] at h
  split at h
  next => exact Except.noConfusion h
  next h5 =>
  split at h
  next => exact Except.noConfusion h
  next h6 =>
  split at h
  next => exact Except.noConfusion h
  next cluster hcluster =>
  split at h
  next => exact Except.noConfusion h
  next machine hmachine =>
  injection h with h'
  subst h'
  constructor <;> simp only [defaultTimeUnit, Nat.one_shiftLeft] <;> try omega

theorem nextIDUpdate_lt (kf : Kubeflake) (cur : Nat) (st : KfState)
    (h : st.elapsedTime < cur) : nextIDUpdate kf cur st = ⟨cur, 0⟩ := by
  unfold nextIDUpdate
  rw [if_pos h]

theorem nextIDUpdate_wrap (kf : Kubeflake) (cur : Nat) (st : KfState)
    (h : ¬ st.elapsedTime < cur) (h2 : (st.sequence + 1) &&& kf.sequenceMask = 0) :
    nextIDUpdate kf cur st = ⟨(st.elapsedTime + 1) % two64, 0⟩ := by
  unfold nextIDUpdate
  rw [if_neg h]
  simp [h2]

theorem nextIDUpdate_step (kf : Kubeflake) (cur : Nat) (st : KfState)
    (h : ¬ st.elapsedTime < cur) (h2 : (st.sequence + 1) &&& kf.sequenceMask ≠ 0) :
    nextIDUpdate kf cur st = ⟨st.elapsedTime, (st.sequence + 1) &&& kf.sequenceMask⟩ := by
  unfold nextIDUpdate
  rw [if_neg h]
  simp [h2]

theorem update_sequence_le (kf : Kubeflake) (cur : Nat) (st : KfState) :
    (nextIDUpdate kf cur st).sequence ≤ kf.sequenceMask := by
  unfold nextIDUpdate
  split
  · exact Nat.zero_le _
  · dsimp only
    split
    next h => simp [h]
    next => exact Nat.and_le_right

theorem toID_ok_elapsed_lt (kf : Kubeflake) (st : KfState) (v : Nat) (hbt : kf.bitsTime < 64)
    (h : toID kf st = .ok v) : st.elapsedTime < 2 ^ kf.bitsTime := by
  unfold toID at h
  rw [one_shift_mod_two64 _ hbt] at h
  by_contra hge
  rw [if_pos (Nat.le_of_not_lt hge)] at h
  exact Except.noConfusion h

theorem pack_lt_time (e1 s1 e2 s2 c m bs bc bm : Nat) (hs1 : s1 < 2 ^ bs) (he : e1 < e2) :
    ((e1 * 2 ^ bs + s1) * 2 ^ bc + c) * 2 ^ bm + m <
      ((e2 * 2 ^ bs + s2) * 2 ^ bc + c) * 2 ^ bm + m := by
  have q1 : e1 * 2 ^ bs + s1 < e2 * 2 ^ bs + s2 := by
    have step : (e1 + 1) * 2 ^ bs ≤ e2 * 2 ^ bs := Nat.mul_le_mul_right _ he
    have expand : (e1 + 1) * 2 ^ bs = e1 * 2 ^ bs + 2 ^ bs := by ring
    omega
  have q2 : (e1 * 2 ^ bs + s1) * 2 ^ bc + c < (e2 * 2 ^ bs + s2) * 2 ^ bc + c :=
    Nat.add_lt_add_right
      (mul_lt_mul_of_pos_right q1 (Nat.pos_pow_of_pos _ (by norm_num))) c
  exact Nat.add_lt_add_right
    (mul_lt_mul_of_pos_right q2 (Nat.pos_pow_of_pos _ (by norm_num))) m

theorem pack_lt_seq (e s1 s2 c m bs bc bm : Nat) (h : s1 < s2) :
    ((e * 2 ^ bs + s1) * 2 ^ bc + c) * 2 ^ bm + m <
      ((e * 2 ^ bs + s2) * 2 ^ bc + c) * 2 ^ bm + m := by
  have q2 : (e * 2 ^ bs + s1) * 2 ^ bc + c < (e * 2 ^ bs + s2) * 2 ^ bc + c :=
    Nat.add_lt_add_right
      (mul_lt_mul_of_pos_right (by omega) (Nat.pos_pow_of_pos _ (by norm_num))) c
  exact Nat.add_lt_add_right
    (mul_lt_mul_of_pos_right q2 (Nat.pos_pow_of_pos _ (by norm_num))) m

theorem compose_ok (kf : Kubeflake) (nanos sequence machineID clusterId : Int)
    (hwf : WellFormed kf)
    (h1 : kf.startTime ≤ toInternalTime kf.timeUnit nanos)
    (h2 : toInternalTime kf.timeUnit nanos - kf.startTime < 2 ^ kf.bitsTime)
    (hs0 : 0 ≤ sequence) (hs1 : sequence < 2 ^ kf.bitsSequence)
    (hc0 : 0 ≤ clusterId) (hc1 : clusterId < 2 ^ kf.bitsCluster)
    (hm0 : 0 ≤ machineID) (hm1 : machineID < 2 ^ kf.bitsMachine) :
    Compose kf nanos sequence machineID clusterId =
      .ok ((((toInternalTime kf.timeUnit nanos - kf.startTime) * 2 ^ kf.bitsSequence +
        sequence.toNat) * 2 ^ kf.bitsCluster + clusterId.toNat) * 2 ^ kf.bitsMachine +
        machineID.toNat) := by
  have hbs64 : kf.bitsSequence ≤ 64 := by have := hwf.total; omega
  have hbc64 : kf.bitsCluster ≤ 64 := by have := hwf.total; omega
  have hbm64 : kf.bitsMachine ≤ 64 := by have := hwf.total; omega
  have hbt64 : kf.bitsTime < 64 := by
    have := hwf.total
    have := hwf.bs_lb
    omega
  have hsN : sequence.toNat < 2 ^ kf.bitsSequence :=
    (Int.toNat_lt hs0).mpr (by exact_mod_cast hs1)
  have hcN : clusterId.toNat < 2 ^ kf.bitsCluster :=
    (Int.toNat_lt hc0).mpr (by exact_mod_cast hc1)
  have hmN : machineID.toNat < 2 ^ kf.bitsMachine :=
    (Int.toNat_lt hm0).mpr (by exact_mod_cast hm1)
  have hus : u64ofInt sequence = sequence.toNat :=
    u64ofInt_eq_toNat _ hs0 (int_lt_two64 _ _ hbs64 hs1)
  have huc : u64ofInt clusterId = clusterId.toNat :=
    u64ofInt_eq_toNat _ hc0 (int_lt_two64 _ _ hbc64 hc1)
  have hum : u64ofInt machineID = machineID.toNat :=
    u64ofInt_eq_toNat _ hm0 (int_lt_two64 _ _ hbm64 hm1)
  simp only [Compose]
  rw [if_neg (Nat.not_lt.mpr h1), one_shift_mod_two64 _ hbt64,
    if_neg (Nat.not_le.mpr h2)]
  rw [if_neg (by push_cast [Nat.one_shiftLeft]; omega),
    if_neg (by push_cast [Nat.one_shiftLeft]; omega),
    if_neg (by push_cast [Nat.one_shiftLeft]; omega)]
  have hE : kf.bitsSequence + kf.bitsMachine + kf.bitsCluster =
      kf.bitsSequence + kf.bitsCluster + kf.bitsMachine := by omega
  rw [hE]
  have hEt : 64 - (kf.bitsSequence + kf.bitsCluster + kf.bitsMachine) = kf.bitsTime := by
    have := hwf.total
    omega
  have htot := hwf.total
  have hb1 : toInternalTime kf.timeUnit nanos - kf.startTime <
      2 ^ (64 - (kf.bitsSequence + kf.bitsCluster + kf.bitsMachine)) := by
    rw [hEt]
    exact h2
  have hb2 : u64ofInt sequence < 2 ^ (64 - (kf.bitsMachine + kf.bitsCluster)) := by
    rw [hus]
    exact lt_of_lt_of_le hsN (Nat.pow_le_pow_right (by norm_num) (by omega))
  have hb3 : u64ofInt clusterId < 2 ^ (64 - kf.bitsMachine) := by
    rw [huc]
    exact lt_of_lt_of_le hcN (Nat.pow_le_pow_right (by norm_num) (by omega))
  rw [shift_mod_two64 _ _ (by omega) hb1]
  rw [shift_mod_two64 _ _ (by omega) hb2]
  rw [shift_mod_two64 _ _ (by omega) hb3]
  rw [pack_eq _ _ _ _ _ _ _ (by rw [hus]; exact hsN) (by rw [huc]; exact hcN)
    (by rw [hum]; exact hmN)]
  rw [hus, huc, hum]

end Kubeflake

namespace Kubeflake

/-! ## Claim theorems for the generator -/

/-- C1 (counterexample): the claim fails as stated. New accepts a machine-id
provider value of 65536 = 2^16, which overlaps the sequence field bit of the
packed ID; with a non-decreasing (here constant) clock, two consecutive
successful NextID calls return the same uint64 67174400, not a strictly
greater one. -/
theorem nextID_not_increasing_counterexample :
    New 10 overflowSettings = .ok overflowKf ∧
    (2000000 : Int) ≤ 2000000 ∧
    NextID overflowKf 2000000 ⟨0, 0⟩ = (⟨2, 0⟩, .ok 67174400) ∧
    NextID overflowKf 2000000 ⟨2, 0⟩ = (⟨2, 1⟩, .ok 67174400) ∧
    ¬ (67174400 < (67174400 : Nat)) := by
  refine ⟨by decide, by decide, by decide, by decide, by decide⟩

/-- C1 (amended): on a well-formed generator whose stored clusterId and
machineId lie inside their declared bit ranges (the data-model invariant),
any two consecutive successful NextID calls - under a non-decreasing clock,
which the proof does not even need - return strictly increasing uint64s.
st0.sequence ≤ sequenceMask is the state invariant: it holds for the initial
state (0, 0) and is preserved by every transition (update_sequence_le). -/
theorem nextID_pair_increasing (kf : Kubeflake) (st0 st1 st2 : KfState)
    (nanos1 nanos2 : Int) (id1 id2 : Nat)
    (hwf : WellFormed kf)
    (hcl : u64ofInt kf.clusterId < 2 ^ kf.bitsCluster)
    (hmc : u64ofInt kf.machineId < 2 ^ kf.bitsMachine)
    (hseq : st0.sequence ≤ kf.sequenceMask)
    (hclock : nanos1 ≤ nanos2)
    (h1 : NextID kf nanos1 st0 = (st1, .ok id1))
    (h2 : NextID kf nanos2 st1 = (st2, .ok id2)) :
    id1 < id2 := by
  have hbt64 : kf.bitsTime < 64 := by
    have := hwf.total
    have := hwf.bs_lb
    omega
  simp only [NextID] at h1 h2
  obtain ⟨h1s, h1v⟩ := Prod.mk.inj h1
  obtain ⟨h2s, h2v⟩ := Prod.mk.inj h2
  subst h1s
  set cur1 := currentElapsedTime kf nanos1 with hc1
  set cur2 := currentElapsedTime kf nanos2 with hc2
  set stA := nextIDUpdate kf cur1 st0 with hstA
  have hsA : stA.sequence ≤ kf.sequenceMask := update_sequence_le kf cur1 st0
  have hsA2 : stA.sequence < 2 ^ kf.bitsSequence := by
    have := hwf.mask
    have hpos : 0 < 2 ^ kf.bitsSequence := Nat.pos_pow_of_pos _ (by norm_num)
    omega
  have heA : stA.elapsedTime < 2 ^ kf.bitsTime := toID_ok_elapsed_lt kf stA id1 hbt64 h1v
  have hid1 : id1 = ((stA.elapsedTime * 2 ^ kf.bitsSequence + stA.sequence) *
      2 ^ kf.bitsCluster + u64ofInt kf.clusterId) * 2 ^ kf.bitsMachine +
      u64ofInt kf.machineId := by
    have := toID_eq kf stA hwf heA hsA2 hcl hmc
    rw [h1v] at this
    exact Except.ok.inj this
  by_cases hlt : stA.elapsedTime < cur2
  · rw [nextIDUpdate_lt kf cur2 stA hlt] at h2v
    have heB : (⟨cur2, 0⟩ : KfState).elapsedTime < 2 ^ kf.bitsTime :=
      toID_ok_elapsed_lt kf _ id2 hbt64 h2v
    have hid2 : id2 = ((cur2 * 2 ^ kf.bitsSequence + 0) * 2 ^ kf.bitsCluster +
        u64ofInt kf.clusterId) * 2 ^ kf.bitsMachine + u64ofInt kf.machineId := by
      have := toID_eq kf ⟨cur2, 0⟩ hwf heB (Nat.pos_pow_of_pos _ (by norm_num)) hcl hmc
      rw [h2v] at this
      exact Except.ok.inj this
    rw [hid1, hid2]
    exact pack_lt_time _ _ _ _ _ _ _ _ _ hsA2 hlt
  · by_cases hwrapped : (stA.sequence + 1) &&& kf.sequenceMask = 0
    · rw [nextIDUpdate_wrap kf cur2 stA hlt hwrapped] at h2v
      have hnowrap : (stA.elapsedTime + 1) % two64 = stA.elapsedTime + 1 := by
        apply Nat.mod_eq_of_lt
        have hle : (2 : Nat) ^ kf.bitsTime ≤ 2 ^ 63 :=
          Nat.pow_le_pow_right (by norm_num) (by omega)
        have : (2 : Nat) ^ 63 < 2 ^ 64 := by norm_num
        simp only [two64]
        omega
      rw [hnowrap] at h2v
      have heB : (⟨stA.elapsedTime + 1, 0⟩ : KfState).elapsedTime < 2 ^ kf.bitsTime :=
        toID_ok_elapsed_lt kf _ id2 hbt64 h2v
      have hid2 : id2 = (((stA.elapsedTime + 1) * 2 ^ kf.bitsSequence + 0) *
          2 ^ kf.bitsCluster + u64ofInt kf.clusterId) * 2 ^ kf.bitsMachine +
          u64ofInt kf.machineId := by
        have := toID_eq kf ⟨stA.elapsedTime + 1, 0⟩ hwf heB
          (Nat.pos_pow_of_pos _ (by norm_num)) hcl hmc
        rw [h2v] at this
        exact Except.ok.inj this
      rw [hid1, hid2]
      exact pack_lt_time _ _ _ _ _ _ _ _ _ hsA2 (Nat.lt_succ_self _)
    · rw [nextIDUpdate_step kf cur2 stA hlt hwrapped] at h2v
      have hmask := hwf.mask
      have hslt : stA.sequence < kf.sequenceMask := by
        rcases Nat.lt_or_ge stA.sequence kf.sequenceMask with h | h
        · exact h
        · exfalso
          have hseqeq : stA.sequence = kf.sequenceMask := Nat.le_antisymm hsA h
          apply hwrapped
          rw [hseqeq, hmask]
          have hpos : 0 < 2 ^ kf.bitsSequence := Nat.pos_pow_of_pos _ (by norm_num)
          have : 2 ^ kf.bitsSequence - 1 + 1 = 2 ^ kf.bitsSequence := by omega
          rw [this, Nat.and_pow_two_sub_one_eq_mod, Nat.mod_self]
      have hstep : (stA.sequence + 1) &&& kf.sequenceMask = stA.sequence + 1 := by
        rw [hmask, Nat.and_pow_two_sub_one_eq_mod]
        apply Nat.mod_eq_of_lt
        omega
      rw [hstep] at h2v
      have heB : (⟨stA.elapsedTime, stA.sequence + 1⟩ : KfState).elapsedTime <
          2 ^ kf.bitsTime := toID_ok_elapsed_lt kf _ id2 hbt64 h2v
      have hsB : stA.sequence + 1 < 2 ^ kf.bitsSequence := by omega
      have hid2 : id2 = ((stA.elapsedTime * 2 ^ kf.bitsSequence + (stA.sequence + 1)) *
          2 ^ kf.bitsCluster + u64ofInt kf.clusterId) * 2 ^ kf.bitsMachine +
          u64ofInt kf.machineId := by
        have := toID_eq kf ⟨stA.elapsedTime, stA.sequence + 1⟩ hwf heB hsB hcl hmc
        rw [h2v] at this
        exact Except.ok.inj this
      rw [hid1, hid2]
      exact pack_lt_seq _ _ _ _ _ _ _ _ (Nat.lt_succ_self _)

/-- Witness for the amended C1: two consecutive NextID calls on the generator
built from exSettings, at the same clock instant, return 167788549 then
167854085. -/
theorem nextID_pair_increasing_witness : (167788549 : Nat) < 167854085 :=
  nextID_pair_increasing exKf ⟨0, 0⟩ ⟨5, 0⟩ ⟨5, 1⟩ 5000000 5000000 167788549 167854085
    (by constructor <;> decide) (by decide) (by decide) (by decide) (by decide)
    (by decide) (by decide)

end Kubeflake

namespace Kubeflake

/-- C2: for every in-range input (internal tick at or after the epoch tick,
elapsed tick below 2^bitsTime, sequence, clusterId, machineId in their
declared ranges), Decompose of Compose reproduces exactly the elapsed tick,
sequence, machineId and clusterId, with no cross-field bit bleed. -/
theorem compose_decompose_roundtrip (kf : Kubeflake) (nanos sequence machineID clusterId : Int)
    (hwf : WellFormed kf)
    (h1 : kf.startTime ≤ toInternalTime kf.timeUnit nanos)
    (h2 : toInternalTime kf.timeUnit nanos - kf.startTime < 2 ^ kf.bitsTime)
    (hs0 : 0 ≤ sequence) (hs1 : sequence < 2 ^ kf.bitsSequence)
    (hc0 : 0 ≤ clusterId) (hc1 : clusterId < 2 ^ kf.bitsCluster)
    (hm0 : 0 ≤ machineID) (hm1 : machineID < 2 ^ kf.bitsMachine) :
    ∃ id, Compose kf nanos sequence machineID clusterId = .ok id ∧
      Decompose kf id =
        { timestamp := toInternalTime kf.timeUnit nanos - kf.startTime,
          sequence := sequence.toNat, machineId := machineID.toNat,
          clusterId := clusterId.toNat } := by
  have hsN : sequence.toNat < 2 ^ kf.bitsSequence :=
    (Int.toNat_lt hs0).mpr (by exact_mod_cast hs1)
  have hcN : clusterId.toNat < 2 ^ kf.bitsCluster :=
    (Int.toNat_lt hc0).mpr (by exact_mod_cast hc1)
  have hmN : machineID.toNat < 2 ^ kf.bitsMachine :=
    (Int.toNat_lt hm0).mpr (by exact_mod_cast hm1)
  exact ⟨_, compose_ok kf nanos sequence machineID clusterId hwf h1 h2 hs0 hs1 hc0 hc1 hm0 hm1,
    decompose_nested kf _ _ _ _ hsN hcN hmN⟩

/-- Witness for C2: Compose/Decompose round-trip on the exSettings generator
at tick 200 with sequence 7, machineId 11, clusterId 3. -/
theorem compose_decompose_roundtrip_witness :
    ∃ id, Compose exKf 200000000 7 11 3 = .ok id ∧
      Decompose exKf id =
        { timestamp := toInternalTime exKf.timeUnit 200000000 - exKf.startTime,
          sequence := (7 : Int).toNat, machineId := (11 : Int).toNat,
          clusterId := (3 : Int).toNat } :=
  compose_decompose_roundtrip exKf 200000000 7 11 3 (by constructor <;> decide) (by decide)
    (by decide) (by decide) (by decide) (by decide) (by decide) (by decide) (by decide)

/-- C3 (code evaluated at the failing inputs): with all other fields valid,
an unset (zero) bit width does not fall back to its documented default;
New rejects it with the corresponding bit-width error, because the
minimum-width validation runs before the zero-default substitution (the
default branches in New are unreachable). -/
theorem new_rejects_zero_widths :
    New 10 zeroSeqSettings = .error .invalidBitsSequence ∧
    New 10 zeroClusterSettings = .error .invalidBitsClusterID ∧
    New 10 zeroMachineSettings = .error .invalidBitsMachineID := by
  refine ⟨by decide, by decide, by decide⟩

/-- C4 (counterexample): the claim fails as stated. New runs no range check on
the provider results: with bitsCluster = 3, a cluster-id provider returning 8
is stored verbatim, and the stored clusterId is not inside [0, 2^3). -/
theorem cluster_out_of_range_counterexample :
    New 10 badClusterSettings = .ok badClusterKf ∧
    badClusterKf.clusterId = 8 ∧
    ¬ (u64ofInt badClusterKf.clusterId < 2 ^ badClusterKf.bitsCluster) := by
  refine ⟨by decide, by decide, by decide⟩

/-- C4 (amended): New stores the provider-returned clusterId and machineId
verbatim (they then never change: the NextID transition only rewrites the
(elapsedTime, sequence) state, never the Kubeflake value), and the stored
ids lie in their declared bit ranges exactly when the providers returned
in-range values - New itself enforces no range. -/
theorem new_stores_provider_ids (nowNanos : Int) (s : Settings) (kf : Kubeflake) (c m : Int)
    (hc : s.clusterId = .ok c) (hm : s.machineId = .ok m)
    (h : New nowNanos s = .ok kf) :
    kf.clusterId = c ∧ kf.machineId = m ∧
    (0 ≤ c → c < 2 ^ kf.bitsCluster → u64ofInt kf.clusterId < 2 ^ kf.bitsCluster) ∧
    (0 ≤ m → m < 2 ^ kf.bitsMachine → u64ofInt kf.machineId < 2 ^ kf.bitsMachine) := by
  have hwf := New_wellFormed nowNanos s kf h
  simp only [New, minSequenceBits, maxSequenceBits, minMachineBits, maxMachineBits,
    minClusterBits, maxClusterBits, minTimeBits, millisecond] at h
  split at h
  next => exact Except.noConfusion h
  next h1 =>
  split at h
  next => exact Except.noConfusion h
  next h2 =>
  split at h
  next => exact Except.noConfusion h
  next h3 =>
  split at h
  next => exact Except.noConfusion h
  next h4 =>
  have hbs0 : ¬(s.bitsSequence = 0) := by omega
  have hbc0 : ¬(s.bitsCluster = 0) := by omega
  have hbm0 : ¬(s.bitsMachine = 0) := by omega
  simp only [if_neg hbs0, if_neg hbc0, if_neg hbm0] at h
  split at h
  next => exact Except.noConfusion h
  next h5 =>
  split at h
  next => exact Except.noConfusion h
  next h6 =>
  split at h
  next => exact Except.noConfusion h
  next cluster hcluster =>
  split at h
  next => exact Except.noConfusion h
  next machine hmachine =>
  rw [hc] at hcluster
  rw [hm] at hmachine
  injection hcluster with hcv
  injection hmachine with hmv
  injection h with h'
  have hbcle : kf.bitsCluster ≤ 64 := by have := hwf.bc_ub; omega
  have hbmle : kf.bitsMachine ≤ 64 := by have := hwf.bm_ub; omega
  subst h'
  subst hcv
  subst hmv
  refine ⟨rfl, rfl, fun hc0 hc1 => ?_, fun hm0 hm1 => ?_⟩
  · rw [u64ofInt_eq_toNat _ hc0 (int_lt_two64 _ _ hbcle hc1)]
    exact (Int.toNat_lt hc0).mpr (by exact_mod_cast hc1)
  · rw [u64ofInt_eq_toNat _ hm0 (int_lt_two64 _ _ hbmle hm1)]
    exact (Int.toNat_lt hm0).mpr (by exact_mod_cast hm1)

/-- Witness for the amended C4 at exSettings (providers returning 2 and 5). -/
theorem new_stores_provider_ids_witness :
    exKf.clusterId = 2 ∧ u64ofInt exKf.clusterId < 2 ^ exKf.bitsCluster :=
  ⟨(new_stores_provider_ids 10 exSettings exKf 2 5 rfl rfl (by decide)).1,
   (new_stores_provider_ids 10 exSettings exKf 2 5 rfl rfl (by decide)).2.2.1
     (by decide) (by decide)⟩

end Kubeflake

namespace Kubeflake

/-- C6: the validation cascade of Compose. A timestamp whose internal tick is
before the epoch tick fails StartTimeAhead; then an elapsed tick count at or
above 2^bitsTime fails OverTimeLimit; then sequence, clusterId, machineId out
of [0, 2^bits) fail InvalidSequence, InvalidClusterID, InvalidMachineID in
that order; fully in-range inputs produce a packed uint64 with no error. -/
theorem compose_error_cases (kf : Kubeflake) (nanos sequence machineID clusterId : Int)
    (hwf : WellFormed kf) :
    (toInternalTime kf.timeUnit nanos < kf.startTime →
      Compose kf nanos sequence machineID clusterId = .error .startTimeAhead) ∧
    (kf.startTime ≤ toInternalTime kf.timeUnit nanos →
      2 ^ kf.bitsTime ≤ toInternalTime kf.timeUnit nanos - kf.startTime →
      Compose kf nanos sequence machineID clusterId = .error .overTimeLimit) ∧
    (kf.startTime ≤ toInternalTime kf.timeUnit nanos →
      toInternalTime kf.timeUnit nanos - kf.startTime < 2 ^ kf.bitsTime →
      (sequence < 0 ∨ 2 ^ kf.bitsSequence ≤ sequence) →
      Compose kf nanos sequence machineID clusterId = .error .invalidSequence) ∧
    (kf.startTime ≤ toInternalTime kf.timeUnit nanos →
      toInternalTime kf.timeUnit nanos - kf.startTime < 2 ^ kf.bitsTime →
      0 ≤ sequence → sequence < 2 ^ kf.bitsSequence →
      (clusterId < 0 ∨ 2 ^ kf.bitsCluster ≤ clusterId) →
      Compose kf nanos sequence machineID clusterId = .error .invalidClusterID) ∧
    (kf.startTime ≤ toInternalTime kf.timeUnit nanos →
      toInternalTime kf.timeUnit nanos - kf.startTime < 2 ^ kf.bitsTime →
      0 ≤ sequence → sequence < 2 ^ kf.bitsSequence →
      0 ≤ clusterId → clusterId < 2 ^ kf.bitsCluster →
      (machineID < 0 ∨ 2 ^ kf.bitsMachine ≤ machineID) →
      Compose kf nanos sequence machineID clusterId = .error .invalidMachineID) ∧
    (kf.startTime ≤ toInternalTime kf.timeUnit nanos →
      toInternalTime kf.timeUnit nanos - kf.startTime < 2 ^ kf.bitsTime →
      0 ≤ sequence → sequence < 2 ^ kf.bitsSequence →
      0 ≤ clusterId → clusterId < 2 ^ kf.bitsCluster →
      0 ≤ machineID → machineID < 2 ^ kf.bitsMachine →
      ∃ v, Compose kf nanos sequence machineID clusterId = .ok v) := by
  have hbt64 : kf.bitsTime < 64 := by
    have := hwf.total
    have := hwf.bs_lb
    omega
  have hone_s : ((1 <<< kf.bitsSequence : Nat) : Int) = 2 ^ kf.bitsSequence := by
    push_cast [Nat.one_shiftLeft]
    ring
  have hone_c : ((1 <<< kf.bitsCluster : Nat) : Int) = 2 ^ kf.bitsCluster := by
    push_cast [Nat.one_shiftLeft]
    ring
  have hone_m : ((1 <<< kf.bitsMachine : Nat) : Int) = 2 ^ kf.bitsMachine := by
    push_cast [Nat.one_shiftLeft]
    ring
  refine ⟨?_, ?_, ?_, ?_, ?_, ?_⟩
  · intro h
    simp only [Compose]
    rw [if_pos h]
  · intro ha hb
    simp only [Compose]
    rw [if_neg (Nat.not_lt.mpr ha), one_shift_mod_two64 _ hbt64, if_pos hb]
  · intro ha hb hs
    simp only [Compose]
    rw [if_neg (Nat.not_lt.mpr ha), one_shift_mod_two64 _ hbt64,
      if_neg (Nat.not_le.mpr hb), if_pos (by rw [ge_iff_le, hone_s]; omega)]
  · intro ha hb hs0 hs1 hcond
    simp only [Compose]
    rw [if_neg (Nat.not_lt.mpr ha), one_shift_mod_two64 _ hbt64,
      if_neg (Nat.not_le.mpr hb), if_neg (by rw [ge_iff_le, hone_s]; omega),
      if_pos (by rw [ge_iff_le, hone_c]; omega)]
  · intro ha hb hs0 hs1 hc0 hc1 hcond
    simp only [Compose]
    rw [if_neg (Nat.not_lt.mpr ha), one_shift_mod_two64 _ hbt64,
      if_neg (Nat.not_le.mpr hb), if_neg (by rw [ge_iff_le, hone_s]; omega),
      if_neg (by rw [ge_iff_le, hone_c]; omega),
      if_pos (by rw [ge_iff_le, hone_m]; omega)]
  · intro ha hb hs0 hs1 hc0 hc1 hm0 hm1
    exact ⟨_, compose_ok kf nanos sequence machineID clusterId hwf ha hb hs0 hs1 hc0 hc1 hm0 hm1⟩

/-- Witness for C6 on the exKf2 generator (epoch tick 100): a before-epoch
time, a negative sequence, and a negative clusterId hit their branches. -/
theorem compose_error_cases_witness :
    Compose exKf2 0 0 0 0 = .error .startTimeAhead ∧
    Compose exKf2 200000000 (-1) 0 0 = .error .invalidSequence ∧
    Compose exKf2 200000000 5 6 (-2) = .error .invalidClusterID :=
  ⟨(compose_error_cases exKf2 0 0 0 0 (by constructor <;> decide)).1 (by decide),
   (compose_error_cases exKf2 200000000 (-1) 0 0 (by constructor <;> decide)).2.2.1
     (by decide) (by decide) (by decide),
   (compose_error_cases exKf2 200000000 5 6 (-2) (by constructor <;> decide)).2.2.2.1
     (by decide) (by decide) (by decide) (by decide) (by decide)⟩

/-- C8 (counterexample): the claim fails as stated. At the time one nanosecond
before the Unix epoch, with the default 10ms unit, Go division truncates
toward zero: toInternalTime returns 0, while the mathematical floor of
(-1) / 10^7 is -1. -/
theorem toInternalTime_not_floor_counterexample :
    (toInternalTime defaultTimeUnit (-1) : Int) ≠ Int.fdiv (-1) defaultTimeUnit := by
  decide

/-- C8 (amended): for every time at or after the Unix epoch (0 ≤ unixNanos,
within the int64 range) and positive time unit, toInternalTime equals the
mathematical floor of unixNanos divided by the unit; before the epoch the Go
truncation toward zero differs from the floor. -/
theorem toInternalTime_floor_of_nonneg (timeUnit nanos : Int) (hu : 0 < timeUnit)
    (h0 : 0 ≤ nanos) (h1 : nanos < 2 ^ 63) :
    (toInternalTime timeUnit nanos : Int) = Int.fdiv nanos timeUnit := by
  unfold toInternalTime u64ofInt
  have htd : nanos.tdiv timeUnit = nanos / timeUnit := Int.tdiv_eq_ediv h0 (le_of_lt hu)
  have hfd : nanos.fdiv timeUnit = nanos / timeUnit := Int.fdiv_eq_ediv nanos (le_of_lt hu)
  have hq0 : 0 ≤ nanos.tdiv timeUnit := Int.tdiv_nonneg h0 (le_of_lt hu)
  have hqlt : nanos.tdiv timeUnit < (2 : Int) ^ 64 := by
    rw [htd]
    have := Int.ediv_le_self timeUnit h0
    have h63 : (2 : Int) ^ 63 < 2 ^ 64 := by norm_num
    omega
  rw [Int.emod_eq_of_lt hq0 hqlt, Int.toNat_of_nonneg hq0, htd, hfd]

/-- Witness for the amended C8: 25ms after the epoch at the default 10ms unit
maps to internal tick 2. -/
theorem toInternalTime_floor_witness :
    (toInternalTime defaultTimeUnit 25000000 : Int) = Int.fdiv 25000000 defaultTimeUnit :=
  toInternalTime_floor_of_nonneg defaultTimeUnit 25000000 (by decide) (by decide) (by decide)

end Kubeflake

namespace Gcputil

set_option maxRecDepth 100000 in
/-- C7: every pinned zone that exists in the catalogue is assigned an index in
the Zones table, and its index is strictly smaller than the index of every
non-pinned zone: the pinned zones occupy the lowest integers. -/
theorem pinned_zones_first :
    (∀ p ∈ pinnedZones, p ∈ zonesTable.map Prod.fst) ∧
    (∀ zp ∈ zonesTable, zp.1 ∈ pinnedZones →
      ∀ zq ∈ zonesTable, zq.1 ∉ pinnedZones → zp.2 < zq.2) := by
  decide

set_option maxRecDepth 100000 in
/-- Witness for C7: the pinned zone africa-south1-a is in the table, and its
index 0 is below index 8 of the non-pinned zone africa-south1-b. -/
theorem pinned_zones_first_witness :
    gs "africa-south1-a" ∈ zonesTable.map Prod.fst ∧ (0 : Nat) < 8 :=
  ⟨pinned_zones_first.1 (gs "africa-south1-a") (by decide),
   pinned_zones_first.2 (gs "africa-south1-a", 0) (by decide) (by decide)
     (gs "africa-south1-b", 8) (by decide) (by decide)⟩

set_option maxRecDepth 100000 in
/-- C10: the Zones table assigns pairwise-distinct indices to pairwise-distinct
zone names, and the assigned indices are exactly 0, 1, ..., count-1 in
assignment order, with no gaps. -/
theorem zones_indices_bijective :
    (zonesTable.map Prod.fst).Nodup ∧
    zonesTable.map Prod.snd = List.range zonesTable.length := by
  decide

end Gcputil
